import Mathlib

/-!
Verification of the PDF colour-inverter core (`PDF_converter_V6.py`, together
with the superseded duplicate variant `PDF_converter_V4.py`) against its
natural-language specification.

Conventions of the embedding:
* a raster image is a list of rows of 8-bit RGB pixels;
* Python float arithmetic is modelled with exact rationals;
* Python `int(...)` on a float truncates toward zero, `//` on ints is floor
  division, `math.ceil(a / b)` on positive ints is ceiling division;
* PIL library primitives called by the source (`ImageOps.invert`,
  `convert("L")`, `ImageEnhance.Contrast/Brightness/Sharpness`,
  `ImageFilter.SMOOTH`, `Image.blend`, `Image.thumbnail`) are modelled from
  the reference semantics of the library.
-/

set_option maxRecDepth 8000

/-- One 8-bit RGB pixel (channel values 0..255, carried as `Nat`). -/
structure RGB where
  r : Nat
  g : Nat
  b : Nat
deriving DecidableEq, Repr

/-- A raster image in PIL "RGB" mode: a list of pixel rows. -/
structure Image where
  px : List (List RGB)
deriving DecidableEq, Repr

/-- Image height: the number of rows. -/
def Image.height (img : Image) : Nat := img.px.length

/-- Image width: the length of the first row. -/
def Image.width (img : Image) : Nat := (img.px.headD []).length

/-- Every row has the image's width. -/
def Image.rectangular (img : Image) : Prop := ∀ row ∈ img.px, row.length = img.width

/-- A well-formed 8-bit image: rectangular, with all channel values ≤ 255. -/
def Image.valid (img : Image) : Prop :=
  img.rectangular ∧ ∀ row ∈ img.px, ∀ p ∈ row, p.r ≤ 255 ∧ p.g ≤ 255 ∧ p.b ≤ 255

instance (img : Image) : Decidable img.rectangular := by
  unfold Image.rectangular; infer_instance

instance (img : Image) : Decidable img.valid := by
  unfold Image.valid; infer_instance

/-- Pixel lookup (in-bounds use only; out of bounds yields black). -/
def getPx (img : Image) (x y : Nat) : RGB := (img.px.getD y []).getD x ⟨0, 0, 0⟩

/-- Apply a function to every pixel of an image. -/
def pixelMap (f : RGB → RGB) (img : Image) : Image :=
  ⟨img.px.map (fun row => row.map f)⟩

/-- `ImageOps.invert` on one RGB pixel: each 8-bit channel `v` becomes `255 - v`. -/
def invertPx (p : RGB) : RGB := ⟨255 - p.r, 255 - p.g, 255 - p.b⟩

/-- `ImageOps.invert(img)`: per-channel complement of the whole image. -/
def invertImage (img : Image) : Image := pixelMap invertPx img

/-- PIL RGB→"L" luminance (ITU-R 601-2, the exact integer form used by PIL:
`L = (19595 R + 38470 G + 7471 B + 2^15) >> 16`). -/
def lum (p : RGB) : Nat := (19595 * p.r + 38470 * p.g + 7471 * p.b + 32768) / 65536

/-- `img.convert("L").convert("RGB")`: luminance expanded back to 3 channels. -/
def toGray3 (img : Image) : Image :=
  pixelMap (fun p => let l := lum p; ⟨l, l, l⟩) img

/-- A constant image with the shape of `img` (PIL `Image.new(mode, img.size, c)`). -/
def constImage (img : Image) (c : RGB) : Image := pixelMap (fun _ => c) img

/-- Float→uint8 store with clipping, rounding to nearest. -/
def clamp8 (q : ℚ) : Nat := (max 0 (min 255 ⌊q + 1/2⌋)).toNat

/-- One channel of PIL `Image.blend(im1, im2, alpha)`:
`out = im1 + alpha * (im2 - im1)` stored back into uint8. -/
def blendChannel (α : ℚ) (v1 v2 : Nat) : Nat :=
  clamp8 ((v1 : ℚ) + α * ((v2 : ℚ) - (v1 : ℚ)))

/-- PIL `Image.blend` on one pixel. -/
def blendPx (α : ℚ) (p1 p2 : RGB) : RGB :=
  ⟨blendChannel α p1.r p2.r, blendChannel α p1.g p2.g, blendChannel α p1.b p2.b⟩

/-- PIL `Image.blend(im1, im2, alpha)` on whole images. -/
def blendImage (α : ℚ) (a b : Image) : Image :=
  ⟨List.zipWith (fun r1 r2 => List.zipWith (blendPx α) r1 r2) a.px b.px⟩

/-- `int(ImageStat.Stat(image.convert("L")).mean[0] + 0.5)`: the rounded mean
luminance used by `ImageEnhance.Contrast` (0 on an empty image). -/
def grayMean (img : Image) : Nat :=
  let ls := (img.px.map (fun row => row.map lum)).flatten
  (2 * ls.sum + ls.length) / (2 * ls.length)

/-- `ImageEnhance.Contrast(img).enhance(factor)`: blend of the constant
mean-gray degenerate image with `img`. -/
def enhanceContrast (factor : ℚ) (img : Image) : Image :=
  let m := grayMean img
  blendImage factor (constImage img ⟨m, m, m⟩) img

/-- `ImageEnhance.Brightness(img).enhance(factor)`: blend of black with `img`. -/
def enhanceBrightness (factor : ℚ) (img : Image) : Image :=
  blendImage factor (constImage img ⟨0, 0, 0⟩) img

/-- One output pixel of `img.filter(ImageFilter.SMOOTH)` (3×3 kernel
`(1 1 1 / 1 5 1 / 1 1 1) / 13`; the one-pixel border is copied unchanged). -/
def smoothPx (img : Image) (x y : Nat) : RGB :=
  if x = 0 ∨ y = 0 ∨ x + 1 = img.width ∨ y + 1 = img.height then getPx img x y
  else
    let ch := fun (f : RGB → Nat) =>
      clamp8 ((((f (getPx img (x-1) (y-1)) + f (getPx img x (y-1)) + f (getPx img (x+1) (y-1))
        + f (getPx img (x-1) y) + 5 * f (getPx img x y) + f (getPx img (x+1) y)
        + f (getPx img (x-1) (y+1)) + f (getPx img x (y+1)) + f (getPx img (x+1) (y+1)) : ℕ) : ℚ)) / 13)
    ⟨ch RGB.r, ch RGB.g, ch RGB.b⟩

/-- `img.filter(ImageFilter.SMOOTH)`. -/
def smoothImage (img : Image) : Image :=
  ⟨(List.range img.height).map (fun y => (List.range img.width).map (fun x => smoothPx img x y))⟩

/-- `ImageEnhance.Sharpness(img).enhance(factor)`: blend of the smoothed
degenerate image with `img`. -/
def enhanceSharpness (factor : ℚ) (img : Image) : Image :=
  blendImage factor (smoothImage img) img

/-- EnhancementParameters: the `settings` dict passed through the pipeline
(`contrast`, `brightness`, `sharpness` are Python floats, modelled as ℚ). -/
structure Settings where
  contrast : ℚ
  brightness : ℚ
  sharpness : ℚ
  grayscale : Bool
deriving DecidableEq, Repr

/-- `PDFManager.process_image` (V6 lines 75-83, identical in V4 lines 35-41):
invert, then optional grayscale, then contrast, brightness, sharpness. -/
def process_image (img : Image) (s : Settings) : Image :=
  let inverted := invertImage img
  let processed := if s.grayscale then toGray3 inverted else inverted
  let processed := enhanceContrast s.contrast processed
  let processed := enhanceBrightness s.brightness processed
  enhanceSharpness s.sharpness processed

/-- A concrete 1×2 well-formed image used by the C1 witness. -/
def testImg : Image := ⟨[[⟨10, 20, 30⟩, ⟨0, 255, 100⟩]]⟩

/-- Concrete enhancement parameters used by the C1 witness. -/
def testSettings : Settings := ⟨6/5, 1, 1, true⟩

/-- The mutable state of `PDFManager` (V6 52-57): original pages, processed
pages, and per-page selection flags, three parallel lists. -/
structure PDFManagerState where
  original_pages : List Image
  pages : List Image
  selected : List Bool
deriving DecidableEq, Repr

/-- The three-collection length invariant
`len(originals) == len(processed) == len(selected)`. -/
def PDFManagerState.invariant (st : PDFManagerState) : Prop :=
  st.original_pages.length = st.pages.length ∧ st.selected.length = st.pages.length

instance (st : PDFManagerState) : Decidable st.invariant := by
  unfold PDFManagerState.invariant; infer_instance

/-- Python `list.insert` at a non-negative index (an index past the end appends). -/
def insertAt {α : Type} (l : List α) (i : Nat) (a : α) : List α :=
  l.take i ++ a :: l.drop i

/-- Python parallel assignment `arr[i], arr[j] = arr[j], arr[i]` on in-bounds
positions (no-op out of bounds; callers only use it in bounds). -/
def swapIdx {α : Type} (l : List α) (i j : Nat) : List α :=
  match l.get? i, l.get? j with
  | some a, some b => (l.set i b).set j a
  | _, _ => l

/-- `Image.new("RGB", (w, h), "white")`. -/
def blankImage (w h : Nat) : Image :=
  ⟨List.replicate h (List.replicate w ⟨255, 255, 255⟩)⟩

/-- `PDFManager.insert_blank_page` (V6 96-102): no-op on an empty document,
otherwise insert a white page sized like page 0 into all three lists
(original gets a copy of the same blank). -/
def insert_blank_page (st : PDFManagerState) (index : Nat) : PDFManagerState :=
  if st.pages = [] then st
  else
    let first := st.pages.headD ⟨[]⟩
    let blank := blankImage first.width first.height
    { original_pages := insertAt st.original_pages index blank
      pages := insertAt st.pages index blank
      selected := insertAt st.selected index true }

/-- `PDFManager.insert_text_page` (V6 104-113): like `insert_blank_page` but
the inserted page carries rendered text; `drawText` stands for PIL
`ImageDraw.Draw(img).text((50, 50), text, fill="black", font=default)`, which
repaints pixels of the white page it is given. -/
def insert_text_page (drawText : Image → String → Image)
    (st : PDFManagerState) (index : Nat) (text : String) : PDFManagerState :=
  if st.pages = [] then st
  else
    let first := st.pages.headD ⟨[]⟩
    let img := drawText (blankImage first.width first.height) text
    { original_pages := insertAt st.original_pages index img
      pages := insertAt st.pages index img
      selected := insertAt st.selected index true }

/-- `PDFManager.move_page` (V6 115-119): swap position `index` with
`index + direction` in all three lists when both are in bounds, else no-op. -/
def move_page (st : PDFManagerState) (index : Nat) (direction : Int) : PDFManagerState :=
  let new_index : Int := (index : Int) + direction
  if (index : Int) < st.pages.length ∧ 0 ≤ new_index ∧ new_index < st.pages.length then
    { original_pages := swapIdx st.original_pages index new_index.toNat
      pages := swapIdx st.pages index new_index.toNat
      selected := swapIdx st.selected index new_index.toNat }
  else st

/-- `PDFConverterGUI.revert_current_page` (V6 590-597): set the processed page
at `index` back to a copy of its original; no-op on an empty document. -/
def revert_current_page (st : PDFManagerState) (index : Nat) : PDFManagerState :=
  if st.pages = [] then st
  else { st with pages := st.pages.set index (st.original_pages.getD index ⟨[]⟩) }

/-- `PDFConverterGUI.revert_all` (V6 599-606):
`for i in range(len(pages)): pages[i] = original_pages[i].copy()`;
no-op on an empty document. In-bounds indexing into `original_pages` is
guaranteed by the length invariant. -/
def revert_all (st : PDFManagerState) : PDFManagerState :=
  if st.pages = [] then st
  else
    { st with
      pages := (List.range st.pages.length).foldl
        (fun ps i => ps.set i (st.original_pages.getD i ⟨[]⟩)) st.pages }

/-- `PDFManager.reprocess_all_pages` (V6 89-94):
`for idx, img in enumerate(original_pages): pages[idx] = process_image(img, settings)`.
In-bounds indexing into `pages` is guaranteed by the length invariant. -/
def reprocess_all_pages (st : PDFManagerState) (s : Settings) : PDFManagerState :=
  { st with
    pages := (List.range st.original_pages.length).foldl
      (fun ps idx => ps.set idx (process_image (st.original_pages.getD idx ⟨[]⟩) s)) st.pages }

/-- One page-editing call of the Document Model (C7's
insertBlank / insertText / move / revert vocabulary). -/
inductive EditOp where
  | insertBlank (index : Nat)
  | insertText (index : Nat) (text : String)
  | move (index : Nat) (direction : Int)
  | revertCurrent (index : Nat)
  | revertAll

/-- Dispatch one page-editing call. -/
def applyEditOp (drawText : Image → String → Image) (st : PDFManagerState) :
    EditOp → PDFManagerState
  | .insertBlank i => insert_blank_page st i
  | .insertText i t => insert_text_page drawText st i t
  | .move i d => move_page st i d
  | .revertCurrent i => revert_current_page st i
  | .revertAll => revert_all st

/-- Run a sequence of page-editing calls. -/
def applyEditOps (drawText : Image → String → Image) (ops : List EditOp)
    (st : PDFManagerState) : PDFManagerState :=
  ops.foldl (applyEditOp drawText) st

instance {ε α : Type} [DecidableEq ε] [DecidableEq α] : DecidableEq (Except ε α) := fun x y =>
  match x, y with
  | .error a, .error b => decidable_of_iff (a = b) (by simp)
  | .ok a, .ok b => decidable_of_iff (a = b) (by simp)
  | .error _, .ok _ => isFalse (by simp)
  | .ok _, .error _ => isFalse (by simp)

/-- Python `str.strip()`; Python strings are embedded as `List Char` so that
all string operations are structurally recursive. -/
def pyStrip (l : List Char) : List Char :=
  ((l.dropWhile Char.isWhitespace).reverse.dropWhile Char.isWhitespace).reverse

/-- Python `str.split(sep)` for a one-character separator
(`"".split(",") == [""]`, empty fields are kept). -/
def splitOnChar (sep : Char) : List Char → List (List Char)
  | [] => [[]]
  | ch :: rest =>
    let r := splitOnChar sep rest
    if ch = sep then [] :: r else (ch :: r.headD []) :: r.tail

/-- Decimal digit accumulator for `pyInt`. -/
def digitsToNatAux : List Char → Nat → Option Nat
  | [], acc => some acc
  | c :: rest, acc =>
    if c.isDigit then digitsToNatAux rest (acc * 10 + (c.toNat - 48)) else none

/-- A non-empty all-digit string as a number. -/
def digitsToNat : List Char → Option Nat
  | [] => none
  | cs => digitsToNatAux cs 0

/-- Python `int(str)`: surrounding whitespace ignored, optional sign, decimal
digits; `none` models `ValueError`. -/
def pyInt (l : List Char) : Option Int :=
  match pyStrip l with
  | '-' :: rest => (digitsToNat rest).map (fun n => -(n : Int))
  | '+' :: rest => (digitsToNat rest).map (fun n => (n : Int))
  | t => (digitsToNat t).map (fun n => (n : Int))

/-- Python `range(a, b)` as a list of ints. -/
def pyRange (a b : Int) : List Int := (List.range (b - a).toNat).map (fun i => a + i)

/-- One comma-separated token of `PDFManager.parse_ranges` (V6 153-162): a
blank token is skipped; `a-b` contributes `range(int(a)-1, int(b))`; a plain
number `n` contributes `[int(n)-1]`; anything else raises `ValueError`. -/
def parsePart (part : List Char) : Except (List Char) (List Int) :=
  let part := pyStrip part
  if part = [] then .ok []
  else if part.contains '-' then
    match splitOnChar '-' part with
    | [a, b] =>
      match pyInt a, pyInt b with
      | some s, some e => .ok (pyRange (s - 1) e)
      | _, _ => .error "ValueError".toList
    | _ => .error "ValueError".toList
  else
    match pyInt part with
    | some n => .ok [n - 1]
    | none => .error "ValueError".toList

/-- `PDFManager.parse_ranges` (V6 148-164): an empty or blank spec denotes all
pages; otherwise the comma-separated tokens are parsed in order and the
collected zero-based indices are clamped to `0 ≤ i < pagesLen` at the end. -/
def parse_ranges (pagesLen : Nat) (s : List Char) : Except (List Char) (List Int) :=
  if pyStrip s = [] then .ok ((List.range pagesLen).map (fun (i : Nat) => (i : Int)))
  else
    match (splitOnChar ',' s).mapM parsePart with
    | .error e => .error e
    | .ok lists =>
      .ok (lists.flatten.filter (fun i => decide (0 ≤ i ∧ i < (pagesLen : Int))))

/-- The page-collection loop of `PDFManager.export_pdf` (V6 124-132): walk the
requested indices in order, keep the processed page whenever its selection
flag is set, and emit one progress fraction `(i+1)/total` per requested index
whether or not the page was kept. In-bounds indexing is guaranteed by the
callers (ranges are clamped by `parse_ranges`). -/
def export_loop (pages : List Image) (selected : List Bool) (total : Nat) :
    List Nat → Nat → List Image × List ℚ
  | [], _ => ([], [])
  | idx :: rest, i =>
    let tail := export_loop pages selected total rest (i + 1)
    (if selected.getD idx false then pages.getD idx ⟨[]⟩ :: tail.1 else tail.1,
     (((i : ℚ) + 1) / (total : ℚ)) :: tail.2)

/-- `PDFManager.export_pdf` (V6 121-146): collect the selected pages among
`page_indices`, raise `"No pages selected for export!"` on an empty
collection (before any file is written), otherwise hand the collected pages,
in order, to the multi-page PDF writer (`save(out_path, save_all=True,
append_images=...)`), one document page per image. The `quality` parameter is
accepted but never used by the body. The first component is the written
document's page list (`Except.error` means the exception was raised and no
file was produced); the second component is the progress emission sequence. -/
def export_pdf (st : PDFManagerState) (page_indices : List Nat) (quality : Nat) :
    Except String (List Image) × List ℚ :=
  let total := page_indices.length
  let res := export_loop st.pages st.selected total page_indices 0
  if res.1 = [] then (.error "No pages selected for export!", res.2)
  else (.ok res.1, res.2)

/-- Python `int(x)` on a float: truncation toward zero (floats are modelled
as exact rationals). -/
def pyIntOfFloat (q : ℚ) : Int := if 0 ≤ q then ⌊q⌋ else ⌈q⌉

/-- `mm_to_px(mm, dpi) = int(mm * dpi / 25.4)` (V6 37-38). -/
def mm_to_px (mm dpi : ℚ) : Int := pyIntOfFloat (mm * dpi / (254/10))

/-- The conversion as the specification words it:
`px = round(mm * dpi / 25.4)`, the nearest integer. Second definition
following the spec, kept for comparison with the source's `mm_to_px`. -/
def mm_to_px_spec (mm dpi : ℚ) : Int := ⌊mm * dpi / (254/10) + 1/2⌋

/-- `DEFAULT_DPI = 200` (V6 28). -/
def DEFAULT_DPI : ℚ := 200

/-- `PAPER_SIZES_MM` (V6 32-35) with the `.get(paper, PAPER_SIZES_MM["A4"])`
fallback used by the layout code. -/
def paperSizeMM (paper : String) : ℚ × ℚ :=
  if paper = "A4" then (210, 297)
  else if paper = "Letter" then (216, 279)
  else (210, 297)

/-- Grid shape from the layout string (`"2x2"` → 2×2, `"3x1"` → 1×3,
`"3x2"` → 2×3, anything else falls back to 2×2), V6 838-846 / 970-978. -/
def gridOf (layout : String) : Nat × Nat :=
  if layout = "2x2" then (2, 2)
  else if layout = "3x1" then (1, 3)
  else if layout = "3x2" then (2, 3)
  else (2, 2)

/-- LayoutParameters: the `layout_options` record (V6 201-210). -/
structure LayoutOptions where
  layout : String
  paper : String
  orientation : String
  with_border : Bool
  outer_margin_mm : ℚ
  inner_margin_mm : ℚ
  reading_direction : String
  quality : Nat
deriving DecidableEq, Repr

/-- The computed pixel geometry of one sheet. -/
structure SheetGeometry where
  cols : Nat
  rows : Nat
  sheet_w : Int
  sheet_h : Int
  outer_px : Int
  inner_px : Int
  cell_w : Int
  cell_h : Int
deriving DecidableEq, Repr

/-- The geometry block shared, with identical code, by
`_generate_compact_thread` (V6 848-866) and `_compose_sheets_preview`
(V6 980-997): paper mm (swapped first when landscape) converted to pixels,
margins converted to pixels, cell size by floor division clamped to ≥ 50. -/
def sheetGeometry (o : LayoutOptions) : SheetGeometry :=
  let (cols, rows) := gridOf o.layout
  let wh := paperSizeMM o.paper
  let w_mm := if o.orientation = "Landscape" then wh.2 else wh.1
  let h_mm := if o.orientation = "Landscape" then wh.1 else wh.2
  let sheet_w := mm_to_px w_mm DEFAULT_DPI
  let sheet_h := mm_to_px h_mm DEFAULT_DPI
  let outer_px := mm_to_px o.outer_margin_mm DEFAULT_DPI
  let inner_px := mm_to_px o.inner_margin_mm DEFAULT_DPI
  let usable_w := sheet_w - outer_px * 2 - inner_px * ((cols : Int) - 1)
  let usable_h := sheet_h - outer_px * 2 - inner_px * ((rows : Int) - 1)
  let cell_w := max 50 (Int.fdiv usable_w (cols : Int))
  let cell_h := max 50 (Int.fdiv usable_h (rows : Int))
  ⟨cols, rows, sheet_w, sheet_h, outer_px, inner_px, cell_w, cell_h⟩

/-- The `round_aspect` helper inside PIL `Image.thumbnail`: the floor or the
ceiling of `number`, whichever minimises `key` (floor preferred on a tie),
but at least 1. -/
def round_aspect (number : ℚ) (key : Int → ℚ) : Int :=
  max (if key ⌊number⌋ ≤ key ⌈number⌉ then ⌊number⌋ else ⌈number⌉) 1

/-- The size produced by PIL `img.thumbnail((tw, th))`: unchanged when the
image already fits (never upscales), otherwise shrunk preserving aspect
ratio. -/
def thumbnailSize (w h tw th : Int) : Int × Int :=
  if tw ≥ w ∧ th ≥ h then (w, h)
  else
    let aspect : ℚ := (w : ℚ) / (h : ℚ)
    if (tw : ℚ) / (th : ℚ) ≥ aspect then
      (round_aspect ((th : ℚ) * aspect) (fun n => |aspect - (n : ℚ) / (th : ℚ)|), th)
    else
      (tw, round_aspect ((tw : ℚ) / aspect)
        (fun n => if n = 0 then 0 else |aspect - (tw : ℚ) / (n : ℚ)|))

/-- A composed sheet, as the trace of PIL operations that built it:
`blank w h` is `Image.new("RGB", (w, h), "white")`;
`pasted s p x y tw th` is `s.paste(page p thumbnailed to tw×th, (x, y))`;
`bordered s x0 y0 x1 y1` is `draw.rectangle([x0, y0, x1, y1], outline="black",
width=1)`; `rotated270 s` is `s.transpose(Image.Transpose.ROTATE_270)`. -/
inductive SheetImage where
  | blank (w h : Int)
  | pasted (base : SheetImage) (page : Nat) (x y tw th : Int)
  | bordered (base : SheetImage) (x0 y0 x1 y1 : Int)
  | rotated270 (base : SheetImage)
deriving DecidableEq, Repr

/-- How many `ROTATE_270` transpositions a sheet has undergone. -/
def SheetImage.rotations : SheetImage → Nat
  | .blank _ _ => 0
  | .pasted b _ _ _ _ _ => b.rotations
  | .bordered b _ _ _ _ => b.rotations
  | .rotated270 b => b.rotations + 1

/-- Placement data of one cell, shared by both composition paths (V6 889-903
and 1017-1030): reading-order row/column, the cell origin `(x, y)`, the
centred paste position, and the thumbnail size of the page placed there. -/
def cellPaste (o : LayoutOptions) (g : SheetGeometry) (pageSizes : List (Int × Int))
    (page_idx cell_idx : Nat) : (Int × Int) × (Int × Int) × (Int × Int) :=
  let r := if o.reading_direction = "Left to Right" then cell_idx / g.cols else cell_idx % g.rows
  let c := if o.reading_direction = "Left to Right" then cell_idx % g.cols else cell_idx / g.rows
  let x := g.outer_px + (c : Int) * (g.cell_w + g.inner_px)
  let y := g.outer_px + (r : Int) * (g.cell_h + g.inner_px)
  let pwh := pageSizes.getD page_idx (0, 0)
  let twh := thumbnailSize pwh.1 pwh.2 g.cell_w g.cell_h
  let paste_x := x + Int.fdiv (g.cell_w - twh.1) 2
  let paste_y := y + Int.fdiv (g.cell_h - twh.2) 2
  ((x, y), (paste_x, paste_y), twh)

/-- One cell of the export path's sheet loop (V6 884-905): paste the
thumbnailed page, then optionally draw the cell border. Cells past the last
page do nothing (the source `break`s; `page_idx` grows with `cell_idx`, so
skipping is equivalent). -/
def generatorCell (o : LayoutOptions) (g : SheetGeometry) (pageSizes : List (Int × Int))
    (total s cell_idx : Nat) (sheet : SheetImage) : SheetImage :=
  let page_idx := s * (g.cols * g.rows) + cell_idx
  if total ≤ page_idx then sheet
  else
    let pd := cellPaste o g pageSizes page_idx cell_idx
    let sheet := SheetImage.pasted sheet page_idx pd.2.1.1 pd.2.1.2 pd.2.2.1 pd.2.2.2
    if o.with_border then
      SheetImage.bordered sheet pd.1.1 pd.1.2 (pd.1.1 + g.cell_w - 1) (pd.1.2 + g.cell_h - 1)
    else sheet

/-- One full sheet of the export path `_generate_compact_thread` (V6 878-916):
all cells are placed on the blank portrait-coordinate sheet, then the finished
sheet is rotated 270° exactly once if the orientation is landscape. -/
def generatorSheet (o : LayoutOptions) (g : SheetGeometry) (pageSizes : List (Int × Int))
    (total s : Nat) : SheetImage :=
  let base := (List.range (g.cols * g.rows)).foldl
    (fun sh ci => generatorCell o g pageSizes total s ci sh)
    (SheetImage.blank g.sheet_w g.sheet_h)
  if o.orientation = "Landscape" then SheetImage.rotated270 base else base

/-- Python `math.ceil(a / b)` for non-negative ints. -/
def ceilDiv (a b : Nat) : Nat := (a + b - 1) / b

/-- The sheet sequence built by the export path `_generate_compact_thread`
(V6 873-916), for a document whose pages have the given pixel sizes. -/
def generate_compact_sheets (o : LayoutOptions) (pageSizes : List (Int × Int)) :
    List SheetImage :=
  let g := sheetGeometry o
  let total := pageSizes.length
  let sheets := ceilDiv total (g.cols * g.rows)
  (List.range sheets).map (generatorSheet o g pageSizes total)

/-- Reference-semantics state during `_compose_sheets_preview`: `store` is the
heap of PIL image objects created so far, `sheetRef` is the object the local
`sheet_img` points at, `drawRef` the object the `ImageDraw` handle was created
on (it is never re-created), and `appended` holds the references pushed onto
`sheet_images`. -/
structure PreviewState where
  store : List SheetImage
  sheetRef : Nat
  drawRef : Nat
  appended : List Nat
deriving DecidableEq, Repr

/-- One iteration of the preview path's cell loop (V6 1012-1042). Unlike the
export path, the landscape rotation (V6 1035-1037) sits INSIDE this loop, so
`sheet_img` is rotated after every cell placement, each rotation creating a
new object; borders are drawn through the now-stale `draw` handle; and
`sheet_images.append(sheet_img)` (V6 1042) also sits inside the loop, once
per cell. -/
def previewCellStep (o : LayoutOptions) (g : SheetGeometry) (pageSizes : List (Int × Int))
    (total s cell_idx : Nat) (st : PreviewState) : PreviewState :=
  let page_idx := s * (g.cols * g.rows) + cell_idx
  if total ≤ page_idx then st
  else
    let pd := cellPaste o g pageSizes page_idx cell_idx
    let cur := st.store.getD st.sheetRef (.blank 0 0)
    let st := { st with
      store := st.store.set st.sheetRef
        (SheetImage.pasted cur page_idx pd.2.1.1 pd.2.1.2 pd.2.2.1 pd.2.2.2) }
    let st :=
      if o.with_border then
        let tgt := st.store.getD st.drawRef (.blank 0 0)
        { st with
          store := st.store.set st.drawRef
            (SheetImage.bordered tgt pd.1.1 pd.1.2 (pd.1.1 + g.cell_w - 1)
              (pd.1.2 + g.cell_h - 1)) }
      else st
    let st :=
      if o.orientation = "Landscape" then
        { st with
          store := st.store ++ [SheetImage.rotated270 (st.store.getD st.sheetRef (.blank 0 0))]
          sheetRef := st.store.length }
      else st
    { st with appended := st.appended ++ [st.sheetRef] }

/-- `_compose_sheets_preview` (V6 968-1045). Because the `return` statement
sits inside the outer sheet loop, only sheet 0's cell loop ever runs and the
function returns at the end of that first outer iteration; with zero sheets
the loop body never runs and the function falls through, returning `None`.
The returned list is resolved through the heap at return time, since Python
lists hold object references. -/
def compose_sheets_preview (o : LayoutOptions) (pageSizes : List (Int × Int))
    (count : Nat) : Option (List SheetImage) :=
  let g := sheetGeometry o
  let total := pageSizes.length
  let sheets := ceilDiv total (g.cols * g.rows)
  if min sheets count = 0 then none
  else
    let st0 : PreviewState := ⟨[SheetImage.blank g.sheet_w g.sheet_h], 0, 0, []⟩
    let st := (List.range (g.cols * g.rows)).foldl
      (fun st ci => previewCellStep o g pageSizes total 0 ci st) st0
    some (st.appended.map (fun r => st.store.getD r (.blank 0 0)))

/-- The progress fractions emitted by `PDFManager.load_pdf` (V6 66-72):
`(idx+1)/total` after each rendered page. -/
def load_pdf_progress (total : Nat) : List ℚ :=
  (List.range total).map (fun (idx : Nat) => ((idx : ℚ) + 1) / (total : ℚ))

/-- The progress fractions emitted by `PDFManager.reprocess_all_pages`
(V6 89-94): `(idx+1)/total` after each reprocessed page. -/
def reprocess_all_progress (total : Nat) : List ℚ :=
  (List.range total).map (fun (idx : Nat) => ((idx : ℚ) + 1) / (total : ℚ))

/-- The page-placement progress of `_generate_compact_thread` (V6 907-910):
`(page_idx+1)/total_pages` after each placed cell, across all sheets. -/
def placement_progress (total cps : Nat) : List ℚ :=
  (List.range (ceilDiv total cps)).foldl
    (fun acc s => acc ++ (List.range cps).filterMap
      (fun ci => if s * cps + ci < total then
        some ((((s * cps + ci : Nat) : ℚ) + 1) / (total : ℚ)) else none))
    []

/-- The sheet-preparation progress of `_generate_compact_thread` (V6 929-930):
`((idx+1)/len(sheet_images)) * 0.9` after each sheet's JPEG re-encode. -/
def preparation_progress (sheets : Nat) : List ℚ :=
  (List.range sheets).map (fun (idx : Nat) => ((idx : ℚ) + 1) / (sheets : ℚ) * (9/10))

/-- The whole progress-value sequence set by `_generate_compact_thread`
(V6 834-939) on a successful run: 0 at start, the placement fractions, the
preparation fractions, then 1 at save. -/
def compact_progress (total cps : Nat) : List ℚ :=
  0 :: placement_progress total cps ++ preparation_progress (ceilDiv total cps) ++ [1]

/-- Landscape A4 2×2 configuration exhibiting the preview rotation defect. -/
def cfgLandscape : LayoutOptions :=
  ⟨"2x2", "A4", "Landscape", false, 5, 2, "Left to Right", 85⟩

/-- Four pages whose raster size equals the computed landscape cell size
(1122×780 px), so thumbnailing leaves them unchanged. -/
def pages4 : List (Int × Int) := List.replicate 4 (1122, 780)

/-- A concrete single-page manager state for the export claims. -/
def oneSelectedPage : PDFManagerState := ⟨[testImg], [testImg], [true]⟩

-- Shape preservation lemmas for the pipeline stages.

theorem pixelMap_height (f : RGB → RGB) (img : Image) :
    (pixelMap f img).height = img.height := by
  simp [pixelMap, Image.height]

theorem pixelMap_width (f : RGB → RGB) (img : Image) :
    (pixelMap f img).width = img.width := by
  cases img with
  | mk px => cases px <;> simp [pixelMap, Image.width]

theorem blendImage_pixelMap_height (α : ℚ) (f : RGB → RGB) (img : Image) :
    (blendImage α (pixelMap f img) img).height = img.height := by
  simp [blendImage, pixelMap, Image.height]

theorem blendImage_pixelMap_width (α : ℚ) (f : RGB → RGB) (img : Image) :
    (blendImage α (pixelMap f img) img).width = img.width := by
  cases img with
  | mk px => cases px with
    | nil => simp [blendImage, pixelMap, Image.width]
    | cons r t => simp [blendImage, pixelMap, Image.width]

theorem enhanceContrast_height (factor : ℚ) (img : Image) :
    (enhanceContrast factor img).height = img.height :=
  blendImage_pixelMap_height factor _ img

theorem enhanceContrast_width (factor : ℚ) (img : Image) :
    (enhanceContrast factor img).width = img.width :=
  blendImage_pixelMap_width factor _ img

theorem enhanceBrightness_height (factor : ℚ) (img : Image) :
    (enhanceBrightness factor img).height = img.height :=
  blendImage_pixelMap_height factor _ img

theorem enhanceBrightness_width (factor : ℚ) (img : Image) :
    (enhanceBrightness factor img).width = img.width :=
  blendImage_pixelMap_width factor _ img

theorem enhanceSharpness_height (factor : ℚ) (img : Image) :
    (enhanceSharpness factor img).height = img.height := by
  simp [enhanceSharpness, blendImage, smoothImage, Image.height]

theorem enhanceSharpness_width (factor : ℚ) (img : Image) :
    (enhanceSharpness factor img).width = img.width := by
  cases img with
  | mk px => cases px with
    | nil => simp [enhanceSharpness, blendImage, smoothImage, Image.width]
    | cons r t =>
      simp [enhanceSharpness, blendImage, smoothImage, Image.width, Image.height,
        List.range_succ_eq_map]

theorem process_image_height (img : Image) (s : Settings) :
    (process_image img s).height = img.height := by
  unfold process_image
  rw [enhanceSharpness_height, enhanceBrightness_height, enhanceContrast_height]
  cases s.grayscale <;> simp [invertImage, toGray3, pixelMap_height]

theorem process_image_width (img : Image) (s : Settings) :
    (process_image img s).width = img.width := by
  unfold process_image
  rw [enhanceSharpness_width, enhanceBrightness_width, enhanceContrast_width]
  cases s.grayscale <;> simp [invertImage, toGray3, pixelMap_width]

theorem getPx_pixelMap (f : RGB → RGB) (img : Image) (x y : Nat)
    (hrect : img.rectangular) (hx : x < img.width) (hy : y < img.height) :
    getPx (pixelMap f img) x y = f (getPx img x y) := by
  have hy' : y < img.px.length := hy
  have hrow : img.px[y].length = img.width := hrect _ (List.getElem_mem hy')
  have hx' : x < img.px[y].length := by rw [hrow]; exact hx
  have h1 : (List.map (fun row => List.map f row) img.px).getD y [] =
      List.map f (img.px.getD y []) := by
    rw [List.getD_eq_getElem _ _ (by simpa using hy'), List.getElem_map,
      List.getD_eq_getElem _ _ hy']
  have hx'' : x < (img.px.getD y []).length := by
    rw [List.getD_eq_getElem _ _ hy']; exact hx'
  have h2 : (List.map f (img.px.getD y [])).getD x ⟨0, 0, 0⟩ =
      f ((img.px.getD y []).getD x ⟨0, 0, 0⟩) := by
    rw [List.getD_eq_getElem _ _ (by simpa using hx''), List.getElem_map,
      List.getD_eq_getElem _ _ hx'']
  simp only [getPx, pixelMap]
  rw [h1, h2]

theorem getPx_mem (img : Image) (x y : Nat)
    (hrect : img.rectangular) (hx : x < img.width) (hy : y < img.height) :
    ∃ row ∈ img.px, getPx img x y ∈ row := by
  have hy' : y < img.px.length := hy
  have hrow : img.px[y].length = img.width := hrect _ (List.getElem_mem hy')
  have hx' : x < img.px[y].length := by rw [hrow]; exact hx
  refine ⟨img.px[y], List.getElem_mem hy', ?_⟩
  simp only [getPx]
  rw [List.getD_eq_getElem _ _ hy', List.getD_eq_getElem _ _ hx']
  exact List.getElem_mem hx'

/-- C1: `PDFManager.process_image` applies the fixed stage order — full
per-channel colour inversion (each 8-bit channel value `v` becomes `255 - v`)
first, then optional grayscale conversion expanded back to three channels,
then contrast, then brightness, then sharpness — it is deterministic (it is a
pure function of the input image and the parameter record), and it returns an
image whose width and height equal the input's. -/
theorem process_image_pipeline (img : Image) (s : Settings) (h : img.valid) :
    (process_image img s).width = img.width ∧
    (process_image img s).height = img.height ∧
    process_image img s =
      enhanceSharpness s.sharpness (enhanceBrightness s.brightness (enhanceContrast s.contrast
        (if s.grayscale then toGray3 (invertImage img) else invertImage img))) ∧
    (∀ x y, x < img.width → y < img.height →
      (getPx (invertImage img) x y).r + (getPx img x y).r = 255 ∧
      (getPx (invertImage img) x y).g + (getPx img x y).g = 255 ∧
      (getPx (invertImage img) x y).b + (getPx img x y).b = 255) := by
  obtain ⟨hrect, hbound⟩ := h
  refine ⟨process_image_width img s, process_image_height img s, ?_, ?_⟩
  · unfold process_image
    cases hg : s.grayscale <;> simp [hg]
  · intro x y hx hy
    obtain ⟨row, hrow, hmem⟩ := getPx_mem img x y hrect hx hy
    obtain ⟨hr, hgc, hb⟩ := hbound row hrow _ hmem
    rw [invertImage, getPx_pixelMap _ _ _ _ hrect hx hy]
    simp only [invertPx]
    exact ⟨Nat.sub_add_cancel hr, Nat.sub_add_cancel hgc, Nat.sub_add_cancel hb⟩

/-- Witness for C1 at a concrete valid image and concrete parameters. -/
theorem process_image_pipeline_witness :
    testImg.valid ∧
    ((process_image testImg testSettings).width = testImg.width ∧
     (process_image testImg testSettings).height = testImg.height ∧
     process_image testImg testSettings =
       enhanceSharpness testSettings.sharpness (enhanceBrightness testSettings.brightness
         (enhanceContrast testSettings.contrast
           (if testSettings.grayscale then toGray3 (invertImage testImg)
            else invertImage testImg))) ∧
     (∀ x y, x < testImg.width → y < testImg.height →
       (getPx (invertImage testImg) x y).r + (getPx testImg x y).r = 255 ∧
       (getPx (invertImage testImg) x y).g + (getPx testImg x y).g = 255 ∧
       (getPx (invertImage testImg) x y).b + (getPx testImg x y).b = 255)) :=
  ⟨by decide, process_image_pipeline testImg testSettings (by decide)⟩

-- List helpers for the Document Model proofs.

theorem insertAt_length {α : Type} (l : List α) (i : Nat) (a : α) :
    (insertAt l i a).length = l.length + 1 := by
  simp [insertAt]
  omega

theorem swapIdx_length {α : Type} (l : List α) (i j : Nat) :
    (swapIdx l i j).length = l.length := by
  unfold swapIdx
  cases hi : l.get? i <;> cases hj : l.get? j <;> simp

theorem foldl_set_length {α : Type} (f : Nat → α) (idxs : List Nat) (init : List α) :
    (idxs.foldl (fun ps i => ps.set i (f i)) init).length = init.length := by
  induction idxs generalizing init with
  | nil => rfl
  | cons a t ih => simp [List.foldl_cons, ih]

theorem insert_blank_page_invariant (st : PDFManagerState) (i : Nat)
    (h : st.invariant) : (insert_blank_page st i).invariant := by
  obtain ⟨h1, h2⟩ := h
  unfold insert_blank_page
  split
  · exact ⟨h1, h2⟩
  · constructor <;> simp [PDFManagerState.invariant, insertAt_length] <;> omega

theorem insert_text_page_invariant (drawText : Image → String → Image)
    (st : PDFManagerState) (i : Nat) (t : String)
    (h : st.invariant) : (insert_text_page drawText st i t).invariant := by
  obtain ⟨h1, h2⟩ := h
  unfold insert_text_page
  split
  · exact ⟨h1, h2⟩
  · constructor <;> simp [PDFManagerState.invariant, insertAt_length] <;> omega

theorem move_page_invariant (st : PDFManagerState) (i : Nat) (d : Int)
    (h : st.invariant) : (move_page st i d).invariant := by
  obtain ⟨h1, h2⟩ := h
  simp only [move_page]
  split
  · constructor <;> simp [PDFManagerState.invariant, swapIdx_length] <;> omega
  · exact ⟨h1, h2⟩

theorem revert_current_page_invariant (st : PDFManagerState) (i : Nat)
    (h : st.invariant) : (revert_current_page st i).invariant := by
  obtain ⟨h1, h2⟩ := h
  unfold revert_current_page
  split
  · exact ⟨h1, h2⟩
  · constructor <;> simp [PDFManagerState.invariant] <;> omega

theorem revert_all_invariant (st : PDFManagerState)
    (h : st.invariant) : (revert_all st).invariant := by
  obtain ⟨h1, h2⟩ := h
  unfold revert_all
  split
  · exact ⟨h1, h2⟩
  · constructor <;> simp [PDFManagerState.invariant, foldl_set_length] <;> omega

theorem applyEditOp_invariant (drawText : Image → String → Image)
    (st : PDFManagerState) (op : EditOp)
    (h : st.invariant) : (applyEditOp drawText st op).invariant := by
  cases op with
  | insertBlank i => exact insert_blank_page_invariant st i h
  | insertText i t => exact insert_text_page_invariant drawText st i t h
  | move i d => exact move_page_invariant st i d h
  | revertCurrent i => exact revert_current_page_invariant st i h
  | revertAll => exact revert_all_invariant st h

/-- C7: starting from any document state satisfying the three-collection
length invariant, any sequence of insertBlank / insertText / move / revert
calls — at any indices, including the boundaries 0 and length — preserves
`len(originals) == len(processed) == len(selected)`. -/
theorem edit_ops_preserve_invariant (drawText : Image → String → Image)
    (ops : List EditOp) (st : PDFManagerState)
    (h : st.invariant) : (applyEditOps drawText ops st).invariant := by
  induction ops generalizing st with
  | nil => exact h
  | cons op t ih => exact ih _ (applyEditOp_invariant drawText st op h)

/-- Witness for C7: a concrete state and a concrete operation sequence
touching both boundary indices. -/
theorem edit_ops_preserve_invariant_witness :
    (oneSelectedPage.invariant) ∧
    (applyEditOps (fun i _ => i)
      [EditOp.insertBlank 0, EditOp.insertText 2 "note", EditOp.move 0 1,
       EditOp.revertCurrent 1, EditOp.revertAll] oneSelectedPage).invariant :=
  ⟨by decide, edit_ops_preserve_invariant (fun i _ => i) _ oneSelectedPage (by decide)⟩

-- Characterisation of the index-loop writes used by revert and reprocess.

theorem set_append_cons {α : Type} (l₁ : List α) (x v : α) (l₂ : List α) :
    (l₁ ++ x :: l₂).set l₁.length v = l₁ ++ v :: l₂ := by
  induction l₁ with
  | nil => rfl
  | cons a t ih => simp [List.cons_append, List.length_cons, List.set_cons_succ, ih]

theorem range_foldl_set {α : Type} (f : Nat → α) (n : Nat) (init : List α)
    (h : n ≤ init.length) :
    (List.range n).foldl (fun ps i => ps.set i (f i)) init =
      (List.range n).map f ++ init.drop n := by
  induction n with
  | zero => simp
  | succ m ih =>
    rw [List.range_succ, List.foldl_append, ih (Nat.le_of_succ_le h)]
    have hm : m < init.length := h
    rw [List.foldl_cons, List.foldl_nil, List.drop_eq_getElem_cons hm]
    have hset := set_append_cons ((List.range m).map f) (init[m]) (f m) (init.drop (m + 1))
    simp only [List.length_map, List.length_range] at hset
    rw [hset]
    simp

theorem revert_all_pages_eq (st : PDFManagerState)
    (h : st.original_pages.length = st.pages.length) :
    (revert_all st).pages = st.original_pages := by
  unfold revert_all
  split
  · next hp =>
    have : st.original_pages = [] := by
      have := h
      rw [hp] at this
      exact List.length_eq_zero.mp this
    rw [hp, this]
  · show (List.range st.pages.length).foldl
      (fun ps i => ps.set i (st.original_pages.getD i ⟨[]⟩)) st.pages = st.original_pages
    rw [range_foldl_set _ _ _ (le_refl _), List.drop_length, List.append_nil]
    apply List.ext_getElem
    · simp [h]
    · intro k h1 h2
      simp only [List.getElem_map, List.getElem_range]
      rw [List.getD_eq_getElem _ _ h2]

theorem reprocess_all_pages_pages (st : PDFManagerState) (s : Settings)
    (h : st.original_pages.length = st.pages.length) :
    (reprocess_all_pages st s).pages =
      st.original_pages.map (fun img => process_image img s) := by
  show (List.range st.original_pages.length).foldl
    (fun ps idx => ps.set idx (process_image (st.original_pages.getD idx ⟨[]⟩) s)) st.pages =
      st.original_pages.map (fun img => process_image img s)
  rw [range_foldl_set _ _ _ (le_of_eq h)]
  have : st.pages.drop st.original_pages.length = [] := by
    rw [h, List.drop_length]
  rw [this, List.append_nil]
  apply List.ext_getElem
  · simp
  · intro k h1 h2
    simp only [List.getElem_map, List.getElem_range]
    congr 1
    rw [List.getD_eq_getElem _ _ (by simpa using h2)]

theorem PDFManagerState.ext' (a b : PDFManagerState)
    (h1 : a.original_pages = b.original_pages) (h2 : a.pages = b.pages)
    (h3 : a.selected = b.selected) : a = b := by
  cases a
  cases b
  simp_all

/-- C9: `revert_all` (set every processed page back to a copy of its
original) immediately followed by `reprocess_all_pages(params)` yields exactly
the same manager state as `reprocess_all_pages(params)` alone on the same
loaded document; the stored originals are unchanged throughout, and the
resulting processed pages are the pipeline applied to each original. -/
theorem revert_reprocess_roundtrip (st : PDFManagerState) (s : Settings)
    (h : st.original_pages.length = st.pages.length) :
    reprocess_all_pages (revert_all st) s = reprocess_all_pages st s ∧
    (revert_all st).original_pages = st.original_pages ∧
    (reprocess_all_pages st s).original_pages = st.original_pages ∧
    (reprocess_all_pages st s).pages =
      st.original_pages.map (fun img => process_image img s) := by
  have horig : (revert_all st).original_pages = st.original_pages := by
    unfold revert_all
    split <;> rfl
  have hsel : (revert_all st).selected = st.selected := by
    unfold revert_all
    split <;> rfl
  have hrev : (revert_all st).pages = st.original_pages := revert_all_pages_eq st h
  have hlen2 : (revert_all st).original_pages.length = (revert_all st).pages.length := by
    rw [horig, hrev]
  refine ⟨?_, horig, rfl, reprocess_all_pages_pages st s h⟩
  apply PDFManagerState.ext'
  · show (revert_all st).original_pages = st.original_pages
    exact horig
  · rw [reprocess_all_pages_pages _ s hlen2, reprocess_all_pages_pages st s h, horig]
  · show (revert_all st).selected = st.selected
    exact hsel

/-- Witness for C9 at a concrete loaded document and concrete parameters. -/
theorem revert_reprocess_roundtrip_witness :
    oneSelectedPage.original_pages.length = oneSelectedPage.pages.length ∧
    (reprocess_all_pages (revert_all oneSelectedPage) testSettings =
       reprocess_all_pages oneSelectedPage testSettings ∧
     (revert_all oneSelectedPage).original_pages = oneSelectedPage.original_pages ∧
     (reprocess_all_pages oneSelectedPage testSettings).original_pages =
       oneSelectedPage.original_pages ∧
     (reprocess_all_pages oneSelectedPage testSettings).pages =
       oneSelectedPage.original_pages.map (fun img => process_image img testSettings)) :=
  ⟨by decide, revert_reprocess_roundtrip oneSelectedPage testSettings (by decide)⟩

-- Characterisation of the export loop.

theorem export_loop_fst (pages : List Image) (selected : List Bool) (total : Nat)
    (idxs : List Nat) (i : Nat) :
    (export_loop pages selected total idxs i).1 =
      (idxs.filter (fun idx => selected.getD idx false)).map
        (fun idx => pages.getD idx ⟨[]⟩) := by
  induction idxs generalizing i with
  | nil => rfl
  | cons a t ih =>
    simp only [export_loop, List.filter_cons, ih]
    cases hsel : selected.getD a false
    · rw [if_neg (by simp [hsel]), if_neg (by simp [hsel])]
    · rw [if_pos (by simp [hsel]), if_pos (by simp [hsel]), List.map_cons]

theorem export_loop_snd (pages : List Image) (selected : List Bool) (total : Nat)
    (idxs : List Nat) (i : Nat) :
    (export_loop pages selected total idxs i).2 =
      (List.range idxs.length).map
        (fun (k : Nat) => ((i : ℚ) + (k : ℚ) + 1) / (total : ℚ)) := by
  induction idxs generalizing i with
  | nil => rfl
  | cons a t ih =>
    simp only [export_loop, List.length_cons, ih (i + 1), List.range_succ_eq_map,
      List.map_cons, List.map_map, List.cons.injEq]
    constructor
    · norm_num
    · apply List.map_congr_left
      intro k _
      simp only [Function.comp_apply]
      push_cast
      ring_nf

/-- C10: in a direct export with an explicit index list, a page at a
requested index is included in the output only if its selection flag is true
(a deselected index is silently skipped), while the progress callback is
still invoked exactly once per requested index — the reported fraction
`(i+1)/total` counts skipped pages too. -/
theorem export_pdf_selected_only (st : PDFManagerState) (idxs : List Nat) (q : Nat)
    (h : ∀ i ∈ idxs, i < st.pages.length ∧ i < st.selected.length) :
    (export_pdf st idxs q).2 =
      (List.range idxs.length).map (fun (k : Nat) => ((k : ℚ) + 1) / (idxs.length : ℚ)) ∧
    (export_pdf st idxs q).2.length = idxs.length ∧
    (∀ pgs, (export_pdf st idxs q).1 = .ok pgs →
      pgs = (idxs.filter (fun i => st.selected.getD i false)).map
        (fun i => st.pages.getD i ⟨[]⟩)) := by
  have hsnd : (export_pdf st idxs q).2 =
      (export_loop st.pages st.selected idxs.length idxs 0).2 := by
    simp only [export_pdf]
    split <;> rfl
  refine ⟨?_, ?_, ?_⟩
  · rw [hsnd, export_loop_snd]
    apply List.map_congr_left
    intro k _
    norm_num
  · rw [hsnd, export_loop_snd]
    simp
  · intro pgs hpgs
    simp only [export_pdf] at hpgs
    split at hpgs
    · cases hpgs
    · rw [Except.ok.injEq] at hpgs
      rw [← hpgs, export_loop_fst]

/-- Witness for C10: one selected and one deselected page, both indices
requested. -/
theorem export_pdf_selected_only_witness :
    (∀ i ∈ [0, 1],
      i < (⟨[testImg, testImg], [testImg, testImg], [true, false]⟩ :
        PDFManagerState).pages.length ∧
      i < (⟨[testImg, testImg], [testImg, testImg], [true, false]⟩ :
        PDFManagerState).selected.length) ∧
    ((export_pdf ⟨[testImg, testImg], [testImg, testImg], [true, false]⟩ [0, 1] 85).2 =
      (List.range ([0, 1] : List Nat).length).map
        (fun (k : Nat) => ((k : ℚ) + 1) / ((([0, 1] : List Nat).length : Nat) : ℚ)) ∧
     (export_pdf ⟨[testImg, testImg], [testImg, testImg], [true, false]⟩ [0, 1] 85).2.length =
       ([0, 1] : List Nat).length ∧
     (∀ pgs, (export_pdf ⟨[testImg, testImg], [testImg, testImg], [true, false]⟩ [0, 1] 85).1 =
         .ok pgs →
       pgs = (([0, 1] : List Nat).filter
         (fun i => (⟨[testImg, testImg], [testImg, testImg], [true, false]⟩ :
           PDFManagerState).selected.getD i false)).map
         (fun i => (⟨[testImg, testImg], [testImg, testImg], [true, false]⟩ :
           PDFManagerState).pages.getD i ⟨[]⟩))) :=
  ⟨by decide, export_pdf_selected_only ⟨[testImg, testImg], [testImg, testImg], [true, false]⟩
    [0, 1] 85 (by decide)⟩

/-- C5: when the qualifying collection (selected pages among the requested
indices) is empty, `export_pdf` raises an explicit error before any file is
written; when it is non-empty, the written document holds exactly one page
per qualifying image, in request order. -/
theorem export_pdf_empty_error_and_order (st : PDFManagerState) (idxs : List Nat) (q : Nat)
    (h : ∀ i ∈ idxs, i < st.pages.length ∧ i < st.selected.length) :
    ((idxs.filter (fun i => st.selected.getD i false)) = [] →
      (export_pdf st idxs q).1 = .error "No pages selected for export!") ∧
    ((idxs.filter (fun i => st.selected.getD i false)) ≠ [] →
      (export_pdf st idxs q).1 =
        .ok ((idxs.filter (fun i => st.selected.getD i false)).map
          (fun i => st.pages.getD i ⟨[]⟩)) ∧
      ((idxs.filter (fun i => st.selected.getD i false)).map
          (fun i => st.pages.getD i ⟨[]⟩)).length =
        (idxs.filter (fun i => st.selected.getD i false)).length) := by
  have hfst : (export_loop st.pages st.selected idxs.length idxs 0).1 =
      (idxs.filter (fun i => st.selected.getD i false)).map
        (fun i => st.pages.getD i ⟨[]⟩) := export_loop_fst _ _ _ _ _
  constructor
  · intro hempty
    simp only [export_pdf]
    rw [if_pos (by rw [hfst, hempty]; rfl)]
  · intro hne
    constructor
    · simp only [export_pdf]
      rw [if_neg (by rw [hfst]; simpa using hne), hfst]
    · simp

/-- Witness for C5: an export whose only requested page is deselected errors;
the bounds hypothesis is discharged at a concrete state. -/
theorem export_pdf_empty_error_and_order_witness :
    (∀ i ∈ [0], i < (⟨[testImg], [testImg], [false]⟩ : PDFManagerState).pages.length ∧
      i < (⟨[testImg], [testImg], [false]⟩ : PDFManagerState).selected.length) ∧
    (([0].filter (fun i => (⟨[testImg], [testImg], [false]⟩ :
        PDFManagerState).selected.getD i false)) = [] →
      (export_pdf ⟨[testImg], [testImg], [false]⟩ [0] 85).1 =
        .error "No pages selected for export!") :=
  ⟨by decide, (export_pdf_empty_error_and_order ⟨[testImg], [testImg], [false]⟩ [0] 85
    (by decide)).1⟩

/-- C4 (code bug): `export_pdf` never performs the lossy JPEG encode/decode
round-trip its own docstring and comments promise — its result is entirely
independent of the `quality` argument, and the page data handed to the PDF
writer is the stored processed raster unchanged (here evaluated at quality 10
on a concrete one-page document). -/
theorem export_pdf_ignores_quality :
    (∀ (st : PDFManagerState) (idxs : List Nat) (q q' : Nat),
      export_pdf st idxs q = export_pdf st idxs q') ∧
    (export_pdf oneSelectedPage [0] 10).1 = .ok [testImg] := by
  refine ⟨fun st idxs q q' => rfl, by decide⟩

/-- C2: `parse_ranges` parses 1-based pages and inclusive ranges to 0-based
indices (`"1-3,5"` with 10 pages gives `[0,1,2,4]`), an empty or blank spec
denotes all pages for every page count, and out-of-bounds indices such as
`"20"` with 5 pages are silently dropped — every index a successful parse
returns is in bounds. -/
theorem parse_ranges_spec :
    parse_ranges 10 "1-3,5".toList = .ok [0, 1, 2, 4] ∧
    (∀ (n : Nat) (s : List Char), pyStrip s = [] →
      parse_ranges n s = .ok ((List.range n).map (fun (i : Nat) => (i : Int)))) ∧
    parse_ranges 5 "20".toList = .ok [] ∧
    (∀ (n : Nat) (s : List Char) (r : List Int), parse_ranges n s = .ok r →
      ∀ i ∈ r, 0 ≤ i ∧ i < (n : Int)) := by
  refine ⟨by decide, ?_, by decide, ?_⟩
  · intro n s hs
    simp [parse_ranges, hs]
  · intro n s r hr i hi
    unfold parse_ranges at hr
    split at hr
    · rw [Except.ok.injEq] at hr
      rw [← hr] at hi
      obtain ⟨k, hk, rfl⟩ := List.mem_map.mp hi
      exact ⟨Int.natCast_nonneg k, by exact_mod_cast List.mem_range.mp hk⟩
    · cases hm : (splitOnChar ',' s).mapM parsePart with
      | error e =>
        rw [hm] at hr
        cases hr
      | ok lists =>
        rw [hm] at hr
        rw [Except.ok.injEq] at hr
        rw [← hr] at hi
        exact of_decide_eq_true (List.mem_filter.mp hi).2

/-- Witness for C2's universally quantified parts at concrete inputs. -/
theorem parse_ranges_spec_witness :
    pyStrip "  ".toList = [] ∧
    parse_ranges 3 "  ".toList = .ok ((List.range 3).map (fun (i : Nat) => (i : Int))) ∧
    (parse_ranges 5 "2,9".toList = .ok [1] ∧ ∀ i ∈ [(1 : Int)], 0 ≤ i ∧ i < (5 : Int)) :=
  ⟨by decide, parse_ranges_spec.2.1 3 "  ".toList (by decide),
   by decide, parse_ranges_spec.2.2.2 5 "2,9".toList [1] (by decide)⟩

/-- C6 counterexample: `mm_to_px` is `int(mm * dpi / 25.4)`, truncation — at
`mm = 1, dpi = 200` the exact value is `1000/127 ≈ 7.874`, whose nearest
integer is 8, but the code returns 7. -/
theorem mm_to_px_not_round :
    mm_to_px 1 200 = 7 ∧ mm_to_px_spec 1 200 = 8 ∧
    mm_to_px 1 200 ≠ mm_to_px_spec 1 200 := by
  have h1 : ((1 : ℚ) * 200 / (254/10)) = 1000/127 := by norm_num
  refine ⟨?_, ?_, ?_⟩
  · rw [mm_to_px, pyIntOfFloat, if_pos (by norm_num), h1]
    norm_num [Int.floor_eq_iff]
  · rw [mm_to_px_spec, h1]
    norm_num [Int.floor_eq_iff]
  · rw [mm_to_px, pyIntOfFloat, if_pos (by norm_num), h1, mm_to_px_spec, h1]
    norm_num [Int.floor_eq_iff]

/-- C6 amended: for non-negative inputs `mm_to_px` returns the truncation
`⌊mm * dpi / 25.4⌋` (floor, since the value is non-negative), which agrees
with the spec's round-to-nearest only when the fractional part is below one
half; fractional parts of at least one half are rounded down, not to
nearest. -/
theorem mm_to_px_truncates (mm dpi : ℚ) (h1 : 0 ≤ mm) (h2 : 0 ≤ dpi) :
    mm_to_px mm dpi = ⌊mm * dpi / (254/10)⌋ ∧
    (mm * dpi / (254/10) - ⌊mm * dpi / (254/10)⌋ < 1/2 →
      mm_to_px mm dpi = mm_to_px_spec mm dpi) := by
  have hq : 0 ≤ mm * dpi / (254/10) := by positivity
  constructor
  · rw [mm_to_px, pyIntOfFloat, if_pos hq]
  · intro hfrac
    rw [mm_to_px, pyIntOfFloat, if_pos hq, mm_to_px_spec]
    symm
    rw [Int.floor_eq_iff]
    constructor
    · have := Int.floor_le (mm * dpi / (254/10))
      linarith
    · linarith

/-- Witness for C6's amended theorem at `mm = 5, dpi = 200`. -/
theorem mm_to_px_truncates_witness :
    (0 ≤ (5 : ℚ)) ∧ (0 ≤ (200 : ℚ)) ∧
    (mm_to_px 5 200 = ⌊(5 : ℚ) * 200 / (254/10)⌋ ∧
     ((5 : ℚ) * 200 / (254/10) - ⌊(5 : ℚ) * 200 / (254/10)⌋ < 1/2 →
       mm_to_px 5 200 = mm_to_px_spec 5 200)) :=
  ⟨by norm_num, by norm_num, mm_to_px_truncates 5 200 (by norm_num) (by norm_num)⟩

/-- C3 (code bug): on a landscape 2×2 layout with four pages, the export path
builds ONE sheet and rotates it exactly once, after all four cells are placed
— but the preview path rotates `sheet_img` after EVERY cell placement,
appends it once per cell, and returns inside the first outer-loop iteration:
it yields FOUR images whose rotation counts are 1, 2, 3 and 4, so the preview
output is not the corresponding prefix of the export path's sheet sequence. -/
theorem compose_rotation_divergence :
    (generate_compact_sheets cfgLandscape pages4).map SheetImage.rotations = [1] ∧
    (compose_sheets_preview cfgLandscape pages4 2).map (List.map SheetImage.rotations) =
      some [1, 2, 3, 4] ∧
    (generate_compact_sheets cfgLandscape pages4).length = 1 ∧
    ((compose_sheets_preview cfgLandscape pages4 2).getD []).length = 4 ∧
    compose_sheets_preview cfgLandscape pages4 2 ≠
      some (generate_compact_sheets cfgLandscape pages4) :=
  ⟨by decide, by decide, by decide, by decide, by decide⟩

/-- C8 counterexample: on a one-page document with a 2×2 layout, the compact
generator's progress sequence is `[0, 1, 9/10, 1]` — placement already
reaches 1.0, then sheet preparation restarts at 0.9 — so the sequence is not
monotonically non-decreasing. -/
theorem compact_progress_not_monotone :
    compact_progress 1 4 = [0, 1, 9/10, 1] ∧
    ¬ (compact_progress 1 4).Pairwise (· ≤ ·) := by
  have h : compact_progress 1 4 = [0, 1, 9/10, 1] := by
    norm_num [compact_progress, placement_progress, preparation_progress, ceilDiv,
      List.range_succ, List.filterMap_cons]
  refine ⟨h, ?_⟩
  rw [h]
  intro hp
  have h1 := (List.pairwise_cons.mp (List.pairwise_cons.mp hp).2).1 (9/10) (by simp)
  norm_num at h1

-- Bounds and monotonicity helpers for the progress sequences.

theorem range_map_div_bounds (n : Nat) :
    ∀ v ∈ (List.range n).map (fun (idx : Nat) => ((idx : ℚ) + 1) / (n : ℚ)),
      0 ≤ v ∧ v ≤ 1 := by
  intro v hv
  obtain ⟨k, hk, rfl⟩ := List.mem_map.mp hv
  have hk' := List.mem_range.mp hk
  have hn : (0 : ℚ) < (n : ℚ) := by
    exact_mod_cast Nat.lt_of_le_of_lt (Nat.zero_le k) hk'
  constructor
  · positivity
  · rw [div_le_one hn]
    have hkk : k + 1 ≤ n := hk'
    exact_mod_cast hkk

theorem range_map_div_pairwise (n : Nat) :
    ((List.range n).map (fun (idx : Nat) => ((idx : ℚ) + 1) / (n : ℚ))).Pairwise (· ≤ ·) := by
  rw [List.pairwise_map]
  apply List.Pairwise.imp ?_ (List.pairwise_lt_range n)
  intro a b hab
  rcases Nat.eq_zero_or_pos n with h0 | hpos
  · subst h0
    simp
  · have hc : (0 : ℚ) < (n : ℚ) := by exact_mod_cast hpos
    rw [div_le_div_iff_of_pos_right hc]
    have : (a : ℚ) ≤ (b : ℚ) := by exact_mod_cast le_of_lt hab
    linarith

theorem mem_foldl_append {α β : Type} (f : β → List α) (l : List β) (acc : List α) (v : α) :
    v ∈ l.foldl (fun a x => a ++ f x) acc ↔ v ∈ acc ∨ ∃ x ∈ l, v ∈ f x := by
  induction l generalizing acc with
  | nil => simp
  | cons b t ih =>
    rw [List.foldl_cons, ih]
    constructor
    · rintro (hab | ⟨x, hx, hfx⟩)
      · rcases List.mem_append.mp hab with h | h
        · exact Or.inl h
        · exact Or.inr ⟨b, List.mem_cons_self b t, h⟩
      · exact Or.inr ⟨x, List.mem_cons_of_mem b hx, hfx⟩
    · rintro (h | ⟨x, hx, hfx⟩)
      · exact Or.inl (List.mem_append.mpr (Or.inl h))
      · rcases List.mem_cons.mp hx with rfl | hx'
        · exact Or.inl (List.mem_append.mpr (Or.inr hfx))
        · exact Or.inr ⟨x, hx', hfx⟩

theorem foldl_append_pairwise {α β : Type} (R : α → α → Prop) (f : β → List α) (l : List β) :
    ∀ acc : List α, acc.Pairwise R →
    (∀ v ∈ acc, ∀ x ∈ l, ∀ w ∈ f x, R v w) →
    (∀ x ∈ l, (f x).Pairwise R) →
    l.Pairwise (fun x y => ∀ v ∈ f x, ∀ w ∈ f y, R v w) →
    (l.foldl (fun a x => a ++ f x) acc).Pairwise R := by
  induction l with
  | nil =>
    intro acc h1 _ _ _
    exact h1
  | cons b t ih =>
    intro acc h1 h2 h3 h4
    rw [List.foldl_cons]
    apply ih
    · rw [List.pairwise_append]
      exact ⟨h1, h3 b (by simp), fun v hv w hw => h2 v hv b (by simp) w hw⟩
    · intro v hv x hx w hw
      rcases List.mem_append.mp hv with hva | hvb
      · exact h2 v hva x (by simp [hx]) w hw
      · exact (List.pairwise_cons.mp h4).1 x hx v hvb w hw
    · intro x hx
      exact h3 x (by simp [hx])
    · exact (List.pairwise_cons.mp h4).2

theorem placement_progress_bounds (total cps : Nat) :
    ∀ v ∈ placement_progress total cps, 0 ≤ v ∧ v ≤ 1 := by
  intro v hv
  unfold placement_progress at hv
  rw [mem_foldl_append] at hv
  rcases hv with h | ⟨s, _, hm⟩
  · simp at h
  · rw [List.mem_filterMap] at hm
    obtain ⟨ci, _, hsome⟩ := hm
    split at hsome
    · next hlt =>
      rw [Option.some.injEq] at hsome
      rw [← hsome]
      have hn : (0 : ℚ) < (total : ℚ) := by
        exact_mod_cast Nat.lt_of_le_of_lt (Nat.zero_le _) hlt
      constructor
      · positivity
      · rw [div_le_one hn]
        have hkk : s * cps + ci + 1 ≤ total := hlt
        exact_mod_cast hkk
    · cases hsome

theorem placement_progress_pairwise (total cps : Nat) :
    (placement_progress total cps).Pairwise (· ≤ ·) := by
  unfold placement_progress
  apply foldl_append_pairwise
  · exact List.Pairwise.nil
  · intro v hv
    simp at hv
  · intro s _
    rw [List.pairwise_filterMap]
    apply List.Pairwise.imp ?_ (List.pairwise_lt_range cps)
    intro a b hab v hva w hwb
    rw [Option.mem_def] at hva hwb
    split at hva
    · next hlt1 =>
      split at hwb
      · next hlt2 =>
        rw [Option.some.injEq] at hva hwb
        rw [← hva, ← hwb]
        have hc : (0 : ℚ) < (total : ℚ) := by
          exact_mod_cast Nat.lt_of_le_of_lt (Nat.zero_le _) hlt1
        rw [div_le_div_iff_of_pos_right hc]
        have : ((s * cps + a : Nat) : ℚ) ≤ ((s * cps + b : Nat) : ℚ) := by
          exact_mod_cast Nat.add_le_add_left (le_of_lt hab) _
        linarith
      · cases hwb
    · cases hva
  · apply List.Pairwise.imp ?_ (List.pairwise_lt_range (ceilDiv total cps))
    intro s1 s2 hs v hv w hw
    rw [List.mem_filterMap] at hv hw
    obtain ⟨a, ha, hva⟩ := hv
    obtain ⟨b, hb, hwb⟩ := hw
    split at hva
    · next hlt1 =>
      split at hwb
      · next hlt2 =>
        rw [Option.some.injEq] at hva hwb
        rw [← hva, ← hwb]
        have ha' := List.mem_range.mp ha
        have hidx : s1 * cps + a ≤ s2 * cps + b := by
          have h1 : s1 * cps + a < (s1 + 1) * cps := by
            rw [Nat.add_mul, Nat.one_mul]
            omega
          have h2 : (s1 + 1) * cps ≤ s2 * cps := Nat.mul_le_mul_right cps hs
          omega
        have hc : (0 : ℚ) < (total : ℚ) := by
          exact_mod_cast Nat.lt_of_le_of_lt (Nat.zero_le _) hlt1
        rw [div_le_div_iff_of_pos_right hc]
        have : ((s1 * cps + a : Nat) : ℚ) ≤ ((s2 * cps + b : Nat) : ℚ) := by
          exact_mod_cast hidx
        linarith
      · cases hwb
    · cases hva

theorem preparation_progress_bounds (sheets : Nat) :
    ∀ v ∈ preparation_progress sheets, 0 ≤ v ∧ v ≤ 1 := by
  intro v hv
  obtain ⟨k, hk, rfl⟩ := List.mem_map.mp hv
  have hk' := List.mem_range.mp hk
  have hn : (0 : ℚ) < (sheets : ℚ) := by
    exact_mod_cast Nat.lt_of_le_of_lt (Nat.zero_le k) hk'
  constructor
  · positivity
  · have h1 : ((k : ℚ) + 1) / (sheets : ℚ) ≤ 1 := by
      rw [div_le_one hn]
      have hkk : k + 1 ≤ sheets := hk'
      exact_mod_cast hkk
    have h2 : ((k : ℚ) + 1) / (sheets : ℚ) * (9/10) ≤ 1 * (9/10) :=
      mul_le_mul_of_nonneg_right h1 (by norm_num)
    linarith

theorem preparation_progress_pairwise (sheets : Nat) :
    (preparation_progress sheets).Pairwise (· ≤ ·) := by
  unfold preparation_progress
  rw [List.pairwise_map]
  apply List.Pairwise.imp ?_ (List.pairwise_lt_range sheets)
  intro a b hab
  apply mul_le_mul_of_nonneg_right ?_ (by norm_num)
  rcases Nat.eq_zero_or_pos sheets with h0 | hpos
  · subst h0
    simp
  · have hc : (0 : ℚ) < (sheets : ℚ) := by exact_mod_cast hpos
    rw [div_le_div_iff_of_pos_right hc]
    have : (a : ℚ) ≤ (b : ℚ) := by exact_mod_cast le_of_lt hab
    linarith

theorem compact_progress_bounds (total cps : Nat) :
    ∀ v ∈ compact_progress total cps, 0 ≤ v ∧ v ≤ 1 := by
  intro v hv
  simp only [compact_progress, List.mem_cons, List.mem_append, List.mem_singleton] at hv
  rcases hv with ((rfl | hv) | hv) | (rfl | h)
  · norm_num
  · exact placement_progress_bounds total cps v hv
  · exact preparation_progress_bounds _ v hv
  · norm_num
  · simp at h

/-- C8 amended: every progress value of load, bulk reprocess, direct export
and compact generation lies in [0,1]; the load, reprocess and export
sequences are monotonically non-decreasing, and within compact generation
each phase (page placement, sheet preparation) is monotonically
non-decreasing on its own — but the full compact sequence is not monotone
(see the counterexample: placement ends at 1.0 before preparation restarts
at 0.9/numSheets). -/
theorem progress_in_range_and_phasewise_monotone :
    (∀ total, (∀ v ∈ load_pdf_progress total, 0 ≤ v ∧ v ≤ 1) ∧
      (load_pdf_progress total).Pairwise (· ≤ ·)) ∧
    (∀ total, (∀ v ∈ reprocess_all_progress total, 0 ≤ v ∧ v ≤ 1) ∧
      (reprocess_all_progress total).Pairwise (· ≤ ·)) ∧
    (∀ (st : PDFManagerState) (idxs : List Nat) (q : Nat),
      (∀ v ∈ (export_pdf st idxs q).2, 0 ≤ v ∧ v ≤ 1) ∧
      ((export_pdf st idxs q).2).Pairwise (· ≤ ·)) ∧
    (∀ total cps, ∀ v ∈ compact_progress total cps, 0 ≤ v ∧ v ≤ 1) ∧
    (∀ total cps, (placement_progress total cps).Pairwise (· ≤ ·) ∧
      (preparation_progress (ceilDiv total cps)).Pairwise (· ≤ ·)) := by
  refine ⟨?_, ?_, ?_, compact_progress_bounds, ?_⟩
  · intro total
    exact ⟨range_map_div_bounds total, range_map_div_pairwise total⟩
  · intro total
    exact ⟨range_map_div_bounds total, range_map_div_pairwise total⟩
  · intro st idxs q
    have hsnd : (export_pdf st idxs q).2 =
        (export_loop st.pages st.selected idxs.length idxs 0).2 := by
      simp only [export_pdf]
      split <;> rfl
    rw [hsnd, export_loop_snd]
    constructor
    · intro v hv
      obtain ⟨k, hk, rfl⟩ := List.mem_map.mp hv
      have hk' := List.mem_range.mp hk
      have hn : (0 : ℚ) < (idxs.length : ℚ) := by
        exact_mod_cast Nat.lt_of_le_of_lt (Nat.zero_le k) hk'
      constructor
      · positivity
      · rw [div_le_one hn]
        have hkk : k + 1 ≤ idxs.length := hk'
        have hc : ((k + 1 : ℕ) : ℚ) ≤ (idxs.length : ℚ) := by exact_mod_cast hkk
        push_cast at hc ⊢
        linarith
    · rw [List.pairwise_map]
      apply List.Pairwise.imp ?_ (List.pairwise_lt_range _)
      intro a b hab
      rcases Nat.eq_zero_or_pos idxs.length with h0 | hpos
      · rw [h0]
        simp
      · have hc : (0 : ℚ) < (idxs.length : ℚ) := by exact_mod_cast hpos
        rw [div_le_div_iff_of_pos_right hc]
        have : (a : ℚ) ≤ (b : ℚ) := by exact_mod_cast le_of_lt hab
        linarith
  · intro total cps
    exact ⟨placement_progress_pairwise total cps, preparation_progress_pairwise _⟩
